import Mathlib

/-!
Shallow embedding of the Omega2D simulation core (Simulation.cpp, Body.cpp,
Points.h) and proofs of the specification's claims about it.

Conventions of the embedding:
* C++ `float`/`double` scalars are modelled as exact rationals (ℚ); wherever a
  claim is about control flow, stored values or string output, rounding plays
  no role in the property itself.
* The square root used by `Simulation::get_hnu` is not expressible on ℚ, so the
  functions deriving from it take an abstract `sq : ℚ → ℚ` argument standing
  for `std::sqrt`; no claim depends on its numeric value.
* Mutation is modelled by explicit state passing: a C++ method that mutates
  `this` becomes a Lean function returning the updated structure (paired with
  its return value or emitted text where relevant).
* `std::shared_ptr<Body>` identity (pointer equality) is modelled by an
  `Option ℕ` identifier: `none` is the null pointer.
* `assert` is modelled with `Except String` where a claim concerns assertion
  behaviour: `.error` is an assertion failure, `.ok` is normal completion.
-/

namespace Omega2D

/-- Element kind enumeration (`elem_t` in the source): inert, active,
reactive. -/
inductive elem_t where
  | inert
  | active
  | reactive
deriving DecidableEq

/-- Motion kind enumeration (`move_t` in the source): fixed, lagrangian,
bodybound. -/
inductive move_t where
  | fixed
  | lagrangian
  | bodybound
deriving DecidableEq

/-! ## Body (Body.cpp)

A rigid body.  `pos_func0/1` are the tinyexpr-compiled position expressions
(`te_compile` results); a compiled expression is modelled as a function of the
single free variable `t` (the source binds the `t` variable to `this_time` and
sets `this_time` before each `te_eval`).  `none` is tinyexpr's null pointer,
returned on compilation failure. -/

structure Body where
  name : String
  parent : String
  this_time : ℚ
  pos0 : ℚ
  pos1 : ℚ
  vel0 : ℚ
  vel1 : ℚ
  apos : ℚ
  avel : ℚ
  pos_expr0 : String
  pos_expr1 : String
  pos_func0 : Option (ℚ → ℚ)
  pos_func1 : Option (ℚ → ℚ)

/-- Primary constructor `Body::Body(x, y)`: position set to the given
constants, velocity {0,0}, zero orientation and angular velocity, no compiled
expressions, evaluation time 0. -/
def Body.init (x y : ℚ) : Body :=
  { name := "", parent := "", this_time := 0,
    pos0 := x, pos1 := y, vel0 := 0, vel1 := 0,
    apos := 0, avel := 0,
    pos_expr0 := "", pos_expr1 := "",
    pos_func0 := none, pos_func1 := none }

/-- Delegating constructor `Body::Body()` = `Body(0.0, 0.0)`. -/
def Body.mkDefault : Body := Body.init 0 0

/-- `Body::set_name`. -/
def Body.set_name (b : Body) (n : String) : Body := { b with name := n }

/-- `Body::set_pos(size_t, double)`: overwrite the stored constant for one
coordinate.  The index assertion `0 <= i < Dimensions` is discharged by the
`Fin 2` type. -/
def Body.set_pos_val (b : Body) (i : Fin 2) (v : ℚ) : Body :=
  match i with
  | 0 => { b with pos0 := v }
  | 1 => { b with pos1 := v }

/-- Read the stored constant position component. -/
def Body.posAt (b : Body) (i : Fin 2) : ℚ :=
  match i with
  | 0 => b.pos0
  | 1 => b.pos1

/-- Read the compiled-expression slot for one coordinate. -/
def Body.funcAt (b : Body) (i : Fin 2) : Option (ℚ → ℚ) :=
  match i with
  | 0 => b.pos_func0
  | 1 => b.pos_func1

/-- `Body::set_pos(size_t, std::string)`: store the expression text, store the
`te_compile` result (null on failure) in the compiled-function slot, and emit
one line of diagnostic text: the test evaluation on success, or the parse
error naming the offending character offset `ierr` on failure.  The compiler
itself (tinyexpr) is external to the class; its result `compiled` and error
offset `ierr` are passed in. -/
def Body.set_pos_str (b : Body) (i : Fin 2) (sval : String)
    (compiled : Option (ℚ → ℚ)) (ierr : ℤ) : Body × String :=
  let b1 :=
    match i with
    | 0 => { b with pos_expr0 := sval, pos_func0 := compiled }
    | 1 => { b with pos_expr1 := sval, pos_func1 := compiled }
  let msg :=
    match compiled with
    | some f =>
        "  testing parsed expression, with t=0, value is " ++ toString (f b.this_time)
    | none =>
        "  Error parsing expression (" ++ sval ++ "), near character " ++ toString ierr
  (b1, msg)

/-- `Body::get_pos(double)`: set the evaluation time, then for each coordinate
with a compiled expression overwrite the stored constant with the expression's
value; coordinates without one keep their constant.  Returns the updated body
and the returned position vector. -/
def Body.get_pos (b : Body) (t : ℚ) : Body × (ℚ × ℚ) :=
  let p0 := match b.pos_func0 with | some f => f t | none => b.pos0
  let p1 := match b.pos_func1 with | some f => f t | none => b.pos1
  ({ b with this_time := t, pos0 := p0, pos1 := p1 }, (p0, p1))

/-- The fixed finite-difference half-step `dt = 1.e-5` of `Body::get_vel`. -/
def fdStep : ℚ := 1 / 100000

/-- `Body::get_vel(double)`: for each coordinate with a compiled expression,
estimate the velocity by the centered two-point finite difference with
half-step `fdStep`; coordinates without one keep the stored velocity (zero
since construction).  `this_time` is left at `t - fdStep` when any expression
was evaluated (the source sets it per evaluation; the last evaluation is at
`t - fdStep`). -/
def Body.get_vel (b : Body) (t : ℚ) : Body × (ℚ × ℚ) :=
  let v0 := match b.pos_func0 with
    | some f => (f (t + fdStep) - f (t - fdStep)) / (2 * fdStep)
    | none => b.vel0
  let v1 := match b.pos_func1 with
    | some f => (f (t + fdStep) - f (t - fdStep)) / (2 * fdStep)
    | none => b.vel1
  let tt := if b.pos_func0.isSome || b.pos_func1.isSome then t - fdStep else b.this_time
  ({ b with this_time := tt, vel0 := v0, vel1 := v1 }, (v0, v1))

/-- `Body::get_orient`: the stored constant angle, regardless of time. -/
def Body.get_orient (b : Body) (_t : ℚ) : ℚ := b.apos

/-- `Body::get_rotvel`: the stored constant angular velocity, regardless of
time. -/
def Body.get_rotvel (b : Body) (_t : ℚ) : ℚ := b.avel

/-- A sequence of constant-valued `set_pos(size_t, double)` calls applied in
order. -/
def Body.applyConsts (b : Body) : List (Fin 2 × ℚ) → Body
  | [] => b
  | (i, v) :: rest => Body.applyConsts (b.set_pos_val i v) rest

/-- Component access on a returned 2-vector. -/
def vecAt (p : ℚ × ℚ) (i : Fin 2) : ℚ :=
  match i with
  | 0 => p.1
  | 1 => p.2

/-! ## Boundary collections (`Simulation::add_boundary`, Simulation.cpp)

The `bdry` member holds `Surfaces<float>` collections (every element pushed
into it is constructed as `Surfaces<float>`).  The `Surfaces` class itself is
not part of the analysed sources; only the attributes `add_boundary` reads and
writes are modelled: element kind, motion kind, associated body pointer, and
panel count. -/

/-- `ElementPacket<float>`: flat coordinates, connectivity index pairs, one
seed value per panel. -/
structure ElementPacket where
  x : List ℚ
  idx : List ℕ
  val : List ℚ
deriving DecidableEq

/-- Modelled from the spec: the panel count a geometry packet contributes
(`Surfaces` is not under src).  The spec gives one per-element scalar value per
panel, and the geometry generators build `val` with exactly one entry per
panel, so the packet's panel count is the length of `val`. -/
def ElementPacket.npanels (g : ElementPacket) : ℕ := g.val.length

/-- A `Surfaces<float>` collection as observed by `add_boundary`: element
kind, motion kind, associated `Body` pointer and panel count. -/
structure Surf where
  elemt : elem_t
  movet : move_t
  bptr : Option ℕ
  np : ℕ
deriving DecidableEq

/-- Modelled from the spec: the `Surfaces` constructor invoked by
`add_boundary` records the kinds and body pointer and takes its panels from
the packet. -/
def Surf.init (g : ElementPacket) (e : elem_t) (m : move_t) (bp : Option ℕ) :
    Surf :=
  { elemt := e, movet := m, bptr := bp, np := g.npanels }

/-- Modelled from the spec: `Surfaces::add_new` merges a packet into an
existing collection, so its panel count grows by the packet's panel count. -/
def Surf.add_new (c : Surf) (g : ElementPacket) : Surf :=
  { c with np := c.np + g.npanels }

/-- The loop-body match test of `add_boundary`: `this_match` stays true iff
the element kinds agree, the motion kinds agree, and — when both the incoming
and the stored motion kind are body-bound — the body pointers are equal. -/
def collMatch (te : elem_t) (tm : move_t) (bp : Option ℕ) (c : Surf) : Bool :=
  decide (c.elemt = te) && decide (c.movet = tm) &&
    (if tm = move_t.bodybound ∧ c.movet = move_t.bodybound
     then decide (bp = c.bptr) else true)

/-- The search loop of `add_boundary`: running `(imatch, no_match)` state over
the list; a later match overwrites an earlier one (`imatch = i` without
break).  `none` is `no_match`. -/
def lastMatchAux (te : elem_t) (tm : move_t) (bp : Option ℕ) :
    List Surf → ℕ → Option ℕ → Option ℕ
  | [], _, acc => acc
  | c :: rest, i, acc =>
      lastMatchAux te tm bp rest (i + 1)
        (if collMatch te tm bp c then some i else acc)

/-- Result of the search loop over the whole list. -/
def lastMatch (bdry : List Surf) (te : elem_t) (tm : move_t) (bp : Option ℕ) :
    Option ℕ :=
  lastMatchAux te tm bp bdry 0 none

/-- In-place update of the collection at one index (`bdry[imatch]`). -/
def modifyAt (f : Surf → Surf) : ℕ → List Surf → List Surf
  | _, [] => []
  | 0, c :: rest => f c :: rest
  | n + 1, c :: rest => c :: modifyAt f n rest

/-- The incoming motion kind of `add_boundary`:
`(_bptr ? bodybound : fixed)`. -/
def thisMove (bp : Option ℕ) : move_t :=
  if bp.isSome then move_t.bodybound else move_t.fixed

namespace Simulation

/-- `Simulation::add_boundary(body, geometry)`: incoming kinds are reactive
and (body-bound when a body pointer is given, fixed otherwise); the list is
searched with the loop above; on no match a new `Surfaces` collection is
appended, otherwise the packet is merged into the collection at the recorded
index (the `holds_alternative<Surfaces>` guard is always satisfied since every
`bdry` entry is a `Surfaces`). -/
def add_boundary (bdry : List Surf) (bp : Option ℕ) (g : ElementPacket) :
    List Surf :=
  match lastMatch bdry elem_t.reactive (thisMove bp) bp with
  | none => bdry ++ [Surf.init g elem_t.reactive (thisMove bp) bp]
  | some i => modifyAt (fun c => c.add_new g) i bdry

end Simulation

/-- The matching key of a stored boundary collection. -/
def collKey (c : Surf) : move_t × Option ℕ := (c.movet, c.bptr)

/-- Invariant of the `bdry` list maintained by `add_boundary` starting from
the empty list: every collection is reactive, fixed collections carry the null
body pointer, body-bound collections a non-null one, and no two collections
share a matching key. -/
def BdryInv (bdry : List Surf) : Prop :=
  (∀ c ∈ bdry, c.elemt = elem_t.reactive ∧
      ((c.movet = move_t.fixed ∧ c.bptr = none) ∨
       (c.movet = move_t.bodybound ∧ c.bptr ≠ none))) ∧
  bdry.Pairwise (fun a b => collKey a ≠ collKey b)

/-- Concrete geometry packet used by the witness below. -/
def gW : ElementPacket := { x := [0, 0, 1, 0], idx := [0, 1], val := [0] }

/-- Concrete boundary-collection list used by the witness below. -/
def bdryW : List Surf :=
  [{ elemt := elem_t.reactive, movet := move_t.bodybound, bptr := some 5, np := 2 }]


/-! ## Point collections (Points.h)

`Points<float>` as held in `vort`/`fldpt`.  The constructor in Points.h sets
`ElementBase::n` to `_in.size()/4` and asserts `_in.size() % 7 == 0`; the
per-element storage lives in `ElementBase` (not under src), so the collection
keeps the flat data vector it received.  (The source constructor takes three
parameters; the call sites pass a fourth null body-pointer argument, which has
no matching parameter in the analysed header, so no body pointer is kept
here.) -/

structure Pts where
  elemt : elem_t
  movet : move_t
  n : ℕ
  data : List ℚ
deriving DecidableEq

/-- The `Points<S>::Points(_in, _e, _m)` constructor: asserts
`_in.size() % 7 == 0` (its comment documents a `4*n` input `(x, y, s, r)`),
sets `n = _in.size()/4` and stores the elements.  Storage decomposition is
`ElementBase`'s job (not under src); the received vector is kept whole. -/
def Points.ctor (invec : List ℚ) (e : elem_t) (m : move_t) : Except String Pts :=
  if invec.length % 7 = 0 then
    .ok { elemt := e, movet := m, n := invec.length / 4, data := invec }
  else
    .error "assert failed: _in.size() % 7 == 0"

/-- Modelled from the spec: `Points::add_new` forwards to
`ElementBase::add_new` (not under src), which appends the incoming elements to
the collection (`add_particles`/`add_fldpts` \"append unconditionally to the
last collection\"). -/
def Pts.add_new (p : Pts) (invec : List ℚ) : Pts :=
  { p with n := p.n + invec.length / 4, data := p.data ++ invec }

/-! ## The simulation orchestrator (Simulation.cpp / Simulation.h) -/

/-- The state behind a `std::future<void>` returned by `std::async`: whether
`wait_for(0s)` reports ready, and the stored outcome that `get()` either
returns or rethrows.  `step()` returns void, so a successful outcome carries
no value. -/
structure FutureTask where
  ready : Bool
  result : Except String Unit

/-- The `Simulation` class state.  `diffuse_on`, `nom_sep_scaled` and
`particle_overlap` are the observable state of the `Diffusion` member
(`diff.get_diffuse()`, `diff.get_nom_sep_scaled()`,
`diff.get_particle_overlap()`); the `Diffusion` class is not under src, so
these are modelled from the spec as stored scalars. -/
structure Sim where
  re : ℚ
  dt : ℚ
  fs0 : ℚ
  fs1 : ℚ
  bodies : List Body
  vort : List Pts
  bdry : List Surf
  fldpt : List Pts
  description : String
  time : ℚ
  output_dt : ℚ
  end_time : ℚ
  use_end_time : Bool
  max_steps : ℕ
  use_max_steps : Bool
  sim_is_initialized : Bool
  step_has_started : Bool
  step_is_finished : Bool
  stepfuture : Option FutureTask
  diffuse_on : Bool
  nom_sep_scaled : ℚ
  particle_overlap : ℚ

/-- `std::numeric_limits<float>::epsilon()` = 2^-23. -/
def machineEps : ℚ := 1 / 2 ^ 23

namespace Sim

/-- `Simulation::get_nparts`: total particle count over the `vort`
collections. -/
def get_nparts (s : Sim) : ℕ := (s.vort.map Pts.n).sum

/-- `Simulation::get_npanels`: total panel count over the `bdry` collections
(the `holds_alternative<Surfaces>` guard is always satisfied). -/
def get_npanels (s : Sim) : ℕ := (s.bdry.map Surf.np).sum

/-- `Simulation::get_hnu` = `sqrt(dt/re)`.  `sq` stands for `std::sqrt`,
abstracted because ℚ has no square root; no claim depends on its value. -/
def get_hnu (sq : ℚ → ℚ) (s : Sim) : ℚ := sq (s.dt / s.re)

/-- `Simulation::get_ips` = `diff.get_nom_sep_scaled() * get_hnu()`. -/
def get_ips (sq : ℚ → ℚ) (s : Sim) : ℚ := s.nom_sep_scaled * get_hnu sq s

/-- `Simulation::get_vdelta` = `diff.get_particle_overlap() * get_ips()`. -/
def get_vdelta (sq : ℚ → ℚ) (s : Sim) : ℚ := s.particle_overlap * get_ips sq s

/-- `Simulation::do_any_bodies_move`: true when some body's translational or
rotational speed (sampled at `time` and `time+dt`) sums above machine
epsilon.  The loop keeps running after a hit; `some_move` just latches. -/
def do_any_bodies_move (s : Sim) : Bool :=
  s.bodies.foldl
    (fun some_move b =>
      let thisvel := (b.get_vel s.time).2
      let nextvel := (b.get_vel (s.time + s.dt)).2
      let thisrot := b.get_rotvel s.time
      let nextrot := b.get_rotvel (s.time + s.dt)
      if machineEps <
          |thisvel.1| + |thisvel.2| + |thisrot| +
          |nextvel.1| + |nextvel.2| + |nextrot|
      then true else some_move)
    false

end Sim

/-- Advisory emitted when there are no boundary features and no particles. -/
def msgNoFeatures : String :=
  "No flow features and no bodies. Add one or both, reset, and run.\n"

/-- Advisory emitted for a boundary with no particles, zero freestream and no
body motion. -/
def msgZeroFreestream : String :=
  "No flow features and zero freestream speed - try adding one or both.\n"

/-- Advisory emitted for a boundary with no particles and diffusion
disabled. -/
def msgNoDiffusion : String :=
  "You have a solid body, but no diffusion. It will not shed vorticity. Turn on viscosity or add a flow feature, reset, and run.\n"

namespace Sim

/-- `Simulation::check_simulation(_nff, _nbf)`: builds and returns advisory
text (it never throws).  The zero-freestream branch returns immediately, so
the no-diffusion advisory is skipped in that combination; otherwise control
falls through to the final return. -/
def check_simulation (s : Sim) (_nff _nbf : ℕ) : String :=
  let retstr := ""
  let retstr := if _nbf = 0 ∧ s.get_nparts = 0 then retstr ++ msgNoFeatures else retstr
  if 0 < _nbf ∧ s.get_nparts = 0 then
    let zero_freestream := s.fs0 * s.fs0 + s.fs1 * s.fs1 < machineEps
    let no_body_movement := s.do_any_bodies_move = false
    if zero_freestream ∧ no_body_movement then
      retstr ++ msgZeroFreestream
    else if s.diffuse_on = false then
      retstr ++ msgNoDiffusion
    else
      retstr
  else
    retstr

/-- `Simulation::add_body`: append to the body list. -/
def add_body (s : Sim) (b : Body) : Sim := { s with bodies := s.bodies ++ [b] }

/-- `Simulation::get_pointer_to_body(_name)`: the search loop only prints a
line for each body whose name matches and never assigns the local `bp`, so
`bp` is still null after the loop and a fresh body named "ground" is always
created and appended.  Returns the new state, the returned body and the
printed lines. -/
def get_pointer_to_body (s : Sim) (nm : String) : Sim × Body × List String :=
  let log := (s.bodies.filter (fun b => b.name == nm)).map
    (fun _ => "  found body matching name (" ++ nm ++ ")")
  let bp := Body.mkDefault.set_name "ground"
  (s.add_body bp, bp,
   log ++ ["  no body matching (" ++ nm ++ ") found, creating (ground)"])

/-- The radius-overwriting loop of `add_particles`:
`for (i=3; i<size; i+=4) _invec[i] = thisvd`. -/
def overwriteRadii (vd : ℚ) (invec : List ℚ) : List ℚ :=
  invec.enum.map (fun iv => if iv.1 % 4 = 3 then vd else iv.2)

/-- `Simulation::add_particles(_invec)`: empty input returns immediately;
`assert(_invec.size() % 4 == 0)`; every fourth entry is overwritten with the
current `get_vdelta()`; then either a new active/lagrangian `Points`
collection is created (when `vort` is empty) or the data is added to the last
collection (always a `Points`). -/
def add_particles (sq : ℚ → ℚ) (s : Sim) (invec : List ℚ) : Except String Sim :=
  if invec.length = 0 then .ok s
  else if invec.length % 4 ≠ 0 then .error "assert failed: _invec.size() % 4 == 0"
  else
    let inv2 := overwriteRadii (s.get_vdelta sq) invec
    match s.vort.getLast? with
    | none =>
        match Points.ctor inv2 elem_t.active move_t.lagrangian with
        | .error e => .error e
        | .ok p => .ok { s with vort := [p] }
    | some p => .ok { s with vort := s.vort.dropLast ++ [p.add_new inv2] }

/-- `Simulation::add_fldpts(_invec, _moves)`: empty input returns immediately;
`assert(_invec.size() % Dimensions == 0)` with `Dimensions = 2`; then either a
new inert `Points` collection is created (when `fldpt` is empty) or the data
is added to the last collection. -/
def add_fldpts (s : Sim) (invec : List ℚ) (moves : Bool) : Except String Sim :=
  if invec.length = 0 then .ok s
  else if invec.length % 2 ≠ 0 then
    .error "assert failed: _invec.size() % Dimensions == 0"
  else
    let move_type := if moves then move_t.lagrangian else move_t.fixed
    match s.fldpt.getLast? with
    | none =>
        match Points.ctor invec elem_t.inert move_type with
        | .error e => .error e
        | .ok p => .ok { s with fldpt := [p] }
    | some p => .ok { s with fldpt := s.fldpt.dropLast ++ [p.add_new invec] }

end Sim

/-! ## Stepping and the background-execution state machine -/

/-- Trace events of one `step()` call. -/
inductive StepEv where
  | diffuse (t dt : ℚ)
  | convect2 (t dt : ℚ)
deriving DecidableEq

/-- The numerical kernels invoked by `step()`: `Diffusion::step` and
`Convection::advect_2nd` are not under src; modelled from the spec as
abstract transformations — diffusion consumes (time, dt, re, vdelta,
freestream, free elements, boundary elements) and yields updated free and
boundary elements; second-order convection additionally consumes and yields
the field points. -/
structure StepFns where
  diff_step : ℚ → ℚ → ℚ → ℚ → (ℚ × ℚ) → List Pts → List Surf →
    (List Pts × List Surf)
  advect_2nd : ℚ → ℚ → (ℚ × ℚ) → List Pts → List Surf → List Pts →
    (List Pts × List Surf × List Pts)

namespace Sim

/-- `Simulation::step()`: one full-step diffusion pass, then one second-order
convection pass, then `time += dt`.  The returned trace records the kernel
invocations in order, with the time-step each one was given. -/
def step (sq : ℚ → ℚ) (F : StepFns) (s : Sim) : Sim × List StepEv :=
  let thisfs := (s.fs0, s.fs1)
  let dres := F.diff_step s.time s.dt s.re (s.get_vdelta sq) thisfs s.vort s.bdry
  let cres := F.advect_2nd s.time s.dt thisfs dres.1 dres.2 s.fldpt
  ({ s with vort := cres.1, bdry := cres.2.1, fldpt := cres.2.2,
            time := s.time + s.dt },
   [StepEv.diffuse s.time s.dt, StepEv.convect2 s.time s.dt])

/-- `n` consecutive `step()` calls. -/
def stepIter (sq : ℚ → ℚ) (F : StepFns) : ℕ → Sim → Sim
  | 0, s => s
  | n + 1, s => stepIter sq F n (step sq F s).1

/-- `Simulation::async_step()`: mark the step started and hand `step()` to a
background context.  The future is recorded not yet ready; `bg` is the
outcome the background call will eventually store (ok, or an exception to be
rethrown by `get()`).  The state mutation the background `step()` performs is
`Sim.step` (proved about separately); this function models only the
state-machine bookkeeping the foreground thread observes. -/
def async_step (s : Sim) (bg : Except String Unit) : Sim :=
  { s with step_has_started := true,
           stepfuture := some { ready := false, result := bg } }

/-- The background completes the outstanding step: its future becomes
ready. -/
def future_completes (s : Sim) : Sim :=
  match s.stepfuture with
  | some t => { s with stepfuture := some { t with ready := true } }
  | none => s

/-- `Simulation::test_for_new_results()`: if no step has started, true
immediately; else if the future is valid and ready, `get()` it (rethrowing a
stored failure exactly here — the future is consumed, the flags untouched),
mark the step finished and no longer started, and return true; otherwise
false without blocking. -/
def test_for_new_results (s : Sim) : Sim × Except String Bool :=
  if s.step_has_started = false then (s, .ok true)
  else
    match s.stepfuture with
    | some t =>
        if t.ready then
          match t.result with
          | .error e => ({ s with stepfuture := none }, .error e)
          | .ok _ =>
              ({ s with stepfuture := none,
                        step_is_finished := true,
                        step_has_started := false }, .ok true)
        else (s, .ok false)
    | none => (s, .ok false)

/-- `Simulation::reset()`: if the step future is valid, `wait()` for the
background `step()` to complete (its state effect lands) and `get()` its
result (rethrowing a stored failure); then zero the clock, clear the three
collection lists, clear the initialized/started/finished flags.  The body
list is not touched. -/
def reset (sq : ℚ → ℚ) (F : StepFns) (s : Sim) : Except String Sim :=
  match s.stepfuture with
  | some t =>
      match t.result with
      | .error e => .error e
      | .ok _ =>
          let s1 := (step sq F s).1
          .ok { s1 with time := 0, vort := [], bdry := [], fldpt := [],
                        sim_is_initialized := false,
                        step_has_started := false,
                        step_is_finished := false,
                        stepfuture := none }
  | none =>
      .ok { s with time := 0, vort := [], bdry := [], fldpt := [],
                   sim_is_initialized := false,
                   step_has_started := false,
                   step_is_finished := false,
                   stepfuture := none }

end Sim

/-- A concrete empty simulation state used by witnesses: the `Simulation()`
constructor state (re = 100, dt = 0.01, zero freestream, empty lists, zero
time, all flags false, no future), with the diffusion member observables set
to diffusion disabled and unit separation/overlap. -/
def simW : Sim :=
  { re := 100, dt := 1 / 100, fs0 := 0, fs1 := 0,
    bodies := [], vort := [], bdry := [], fldpt := [],
    description := "", time := 0, output_dt := 0, end_time := 0,
    use_end_time := false, max_steps := 0, use_max_steps := false,
    sim_is_initialized := false, step_has_started := false,
    step_is_finished := false, stepfuture := none,
    diffuse_on := false, nom_sep_scaled := 1, particle_overlap := 1 }

/-- Identity kernels used by witnesses: diffusion and convection that leave
the collections unchanged. -/
def stepFnsW : StepFns :=
  { diff_step := fun _ _ _ _ _ v b => (v, b),
    advect_2nd := fun _ _ _ v b f => (v, b, f) }

/-- A concrete particle collection used by the C10 witness. -/
def ptsW : Pts :=
  { elemt := elem_t.active, movet := move_t.lagrangian, n := 1,
    data := [0, 0, 1, 1] }

/-- `simW` with one existing particle collection, used by the C10 witness. -/
def simP : Sim := { simW with vort := [ptsW] }

/-! ## Theorems -/

theorem Body.set_pos_val_keeps_funcs_vel (b : Body) (i : Fin 2) (v : ℚ) :
    (b.set_pos_val i v).pos_func0 = b.pos_func0 ∧
    (b.set_pos_val i v).pos_func1 = b.pos_func1 ∧
    (b.set_pos_val i v).vel0 = b.vel0 ∧
    (b.set_pos_val i v).vel1 = b.vel1 := by
  fin_cases i <;> simp [Body.set_pos_val]

theorem Body.applyConsts_keeps_funcs_vel (ops : List (Fin 2 × ℚ)) (b : Body) :
    (b.applyConsts ops).pos_func0 = b.pos_func0 ∧
    (b.applyConsts ops).pos_func1 = b.pos_func1 ∧
    (b.applyConsts ops).vel0 = b.vel0 ∧
    (b.applyConsts ops).vel1 = b.vel1 := by
  induction ops generalizing b with
  | nil => exact ⟨rfl, rfl, rfl, rfl⟩
  | cons hd tl ih =>
    obtain ⟨i, v⟩ := hd
    have h1 := Body.set_pos_val_keeps_funcs_vel b i v
    have h2 := ih (b.set_pos_val i v)
    simp only [Body.applyConsts]
    exact ⟨h2.1.trans h1.1, h2.2.1.trans h1.2.1,
           h2.2.2.1.trans h1.2.2.1, h2.2.2.2.trans h1.2.2.2⟩

/-- C6: a Body constructed with constants and modified only by constant
`set_pos` calls has `get_pos(t)` returning exactly the stored constants and
`get_vel(t)` returning exactly {0, 0}, for every time `t`. -/
theorem body_const_coords_pos_vel (x y : ℚ) (ops : List (Fin 2 × ℚ)) (t : ℚ) :
    ((Body.init x y).applyConsts ops).get_pos t
      = ({ (Body.init x y).applyConsts ops with this_time := t },
         (((Body.init x y).applyConsts ops).pos0,
          ((Body.init x y).applyConsts ops).pos1)) ∧
    (((Body.init x y).applyConsts ops).get_vel t).2 = (0, 0) := by
  obtain ⟨hf0, hf1, hv0, hv1⟩ :=
    Body.applyConsts_keeps_funcs_vel ops (Body.init x y)
  have hf0' : ((Body.init x y).applyConsts ops).pos_func0 = none := hf0.trans rfl
  have hf1' : ((Body.init x y).applyConsts ops).pos_func1 = none := hf1.trans rfl
  have hv0' : ((Body.init x y).applyConsts ops).vel0 = 0 := hv0.trans rfl
  have hv1' : ((Body.init x y).applyConsts ops).vel1 = 0 := hv1.trans rfl
  constructor
  · simp [Body.get_pos, hf0', hf1']
  · simp [Body.get_vel, hf0', hf1', hv0', hv1']


/-- C7: `Body::set_pos(size_t, std::string)` with a failing compile
(`te_compile` returns null) is not fatal: the compiled-function slot for that
coordinate is left null, both stored constants are unchanged, every subsequent
`get_pos` returns the previously stored constant for that coordinate, and the
emitted diagnostic line ends with the offending character offset. -/
theorem body_set_pos_str_fail (b : Body) (i : Fin 2) (sval : String)
    (ierr : ℤ) (t : ℚ) :
    ((b.set_pos_str i sval none ierr).1.funcAt i = none) ∧
    ((b.set_pos_str i sval none ierr).1.pos0 = b.pos0) ∧
    ((b.set_pos_str i sval none ierr).1.pos1 = b.pos1) ∧
    (vecAt (((b.set_pos_str i sval none ierr).1.get_pos t).2) i = b.posAt i) ∧
    (∃ pre, (b.set_pos_str i sval none ierr).2 = pre ++ toString ierr) := by
  fin_cases i
  · refine ⟨rfl, rfl, rfl, ?_, ?_⟩
    · simp [Body.set_pos_str, Body.get_pos, Body.posAt, vecAt]
    · exact ⟨"  Error parsing expression (" ++ sval ++ "), near character ", rfl⟩
  · refine ⟨rfl, rfl, rfl, ?_, ?_⟩
    · simp [Body.set_pos_str, Body.get_pos, Body.posAt, vecAt]
    · exact ⟨"  Error parsing expression (" ++ sval ++ "), near character ", rfl⟩

theorem lastMatchAux_append (te : elem_t) (tm : move_t) (bp : Option ℕ)
    (l1 l2 : List Surf) (i : ℕ) (acc : Option ℕ) :
    lastMatchAux te tm bp (l1 ++ l2) i acc
      = lastMatchAux te tm bp l2 (i + l1.length) (lastMatchAux te tm bp l1 i acc) := by
  induction l1 generalizing i acc with
  | nil => simp [lastMatchAux]
  | cons c rest ih =>
      simp only [List.cons_append, lastMatchAux, List.length_cons, List.append_eq]
      rw [ih]
      have harith : i + 1 + rest.length = i + (rest.length + 1) := by omega
      rw [harith]

theorem lastMatchAux_of_all_false (te : elem_t) (tm : move_t) (bp : Option ℕ)
    (l : List Surf) (i : ℕ) (acc : Option ℕ)
    (h : ∀ c ∈ l, collMatch te tm bp c = false) :
    lastMatchAux te tm bp l i acc = acc := by
  induction l generalizing i acc with
  | nil => rfl
  | cons c rest ih =>
      have hc : collMatch te tm bp c = false := h c (by simp)
      simp only [lastMatchAux, hc, Bool.false_eq_true, if_false]
      exact ih (i + 1) acc (fun c' hc' => h c' (by simp [hc']))

theorem lastMatch_decomp (te : elem_t) (tm : move_t) (bp : Option ℕ)
    (l1 l2 : List Surf) (c : Surf)
    (h1 : ∀ c1 ∈ l1, collMatch te tm bp c1 = false)
    (hc : collMatch te tm bp c = true)
    (h2 : ∀ c2 ∈ l2, collMatch te tm bp c2 = false) :
    lastMatch (l1 ++ c :: l2) te tm bp = some l1.length := by
  unfold lastMatch
  rw [lastMatchAux_append, lastMatchAux_of_all_false te tm bp l1 0 none h1]
  simp only [lastMatchAux, hc, if_true, Nat.zero_add]
  exact lastMatchAux_of_all_false te tm bp l2 _ _ h2

theorem modifyAt_append (f : Surf → Surf) (l1 l2 : List Surf) (c : Surf) :
    modifyAt f l1.length (l1 ++ c :: l2) = l1 ++ f c :: l2 := by
  induction l1 with
  | nil => rfl
  | cons a rest ih => simp [modifyAt, ih]

theorem collMatch_key (bp : Option ℕ) (c : Surf)
    (hc : c.elemt = elem_t.reactive ∧
      ((c.movet = move_t.fixed ∧ c.bptr = none) ∨
       (c.movet = move_t.bodybound ∧ c.bptr ≠ none)))
    (hm : collMatch elem_t.reactive (thisMove bp) bp c = true) :
    collKey c = (thisMove bp, bp) := by
  cases bp with
  | none =>
      simp only [thisMove, Option.isSome_none, Bool.false_eq_true, if_false] at hm ⊢
      simp only [collMatch, Bool.and_eq_true, decide_eq_true_eq] at hm
      have hmv : c.movet = move_t.fixed := hm.1.2
      rcases hc.2 with ⟨_, hbn⟩ | ⟨hmb, _⟩
      · simp [collKey, hmv, hbn]
      · rw [hmv] at hmb; exact absurd hmb (by simp)
  | some k =>
      simp only [thisMove, Option.isSome_some, if_true] at hm ⊢
      simp only [collMatch, Bool.and_eq_true, decide_eq_true_eq] at hm
      have hmv : c.movet = move_t.bodybound := hm.1.2
      have hif := hm.2
      rw [if_pos (show _ ∧ c.movet = move_t.bodybound from ⟨by trivial, hmv⟩)] at hif
      simp only [decide_eq_true_eq] at hif
      simp [collKey, hmv, ← hif]

theorem BdryInv.no_other_match (bp : Option ℕ) (l1 l2 : List Surf) (c : Surf)
    (h : BdryInv (l1 ++ c :: l2))
    (hm : collMatch elem_t.reactive (thisMove bp) bp c = true) :
    (∀ c1 ∈ l1, collMatch elem_t.reactive (thisMove bp) bp c1 = false) ∧
    (∀ c2 ∈ l2, collMatch elem_t.reactive (thisMove bp) bp c2 = false) := by
  obtain ⟨helem, hpw⟩ := h
  have hkc : collKey c = (thisMove bp, bp) :=
    collMatch_key bp c (helem c (by simp)) hm
  rw [List.pairwise_append] at hpw
  obtain ⟨_, hpw2, hcross⟩ := hpw
  rw [List.pairwise_cons] at hpw2
  constructor
  · intro c1 h1
    cases hb : collMatch elem_t.reactive (thisMove bp) bp c1 with
    | false => rfl
    | true =>
        exfalso
        have hk1 : collKey c1 = (thisMove bp, bp) :=
          collMatch_key bp c1 (helem c1 (by simp [h1])) hb
        exact hcross c1 h1 c (by simp) (hk1.trans hkc.symm)
  · intro c2 h2
    cases hb : collMatch elem_t.reactive (thisMove bp) bp c2 with
    | false => rfl
    | true =>
        exfalso
        have hk2 : collKey c2 = (thisMove bp, bp) :=
          collMatch_key bp c2 (helem c2 (by simp [h2])) hb
        exact hpw2.1 c2 h2 (hkc.trans hk2.symm)

theorem lastMatchAux_eq_none (te : elem_t) (tm : move_t) (bp : Option ℕ) :
    ∀ (l : List Surf) (i : ℕ) (acc : Option ℕ),
      lastMatchAux te tm bp l i acc = none →
      acc = none ∧ ∀ c ∈ l, collMatch te tm bp c = false := by
  intro l
  induction l with
  | nil => intro i acc h; exact ⟨h, by simp⟩
  | cons c rest ih =>
      intro i acc h
      simp only [lastMatchAux] at h
      obtain ⟨hacc, hrest⟩ := ih (i + 1) _ h
      have hc : collMatch te tm bp c = false := by
        by_contra hb
        rw [Bool.not_eq_false] at hb
        rw [hb] at hacc
        simp at hacc
      rw [hc] at hacc
      simp only [Bool.false_eq_true, if_false] at hacc
      refine ⟨hacc, ?_⟩
      intro c' hc'
      rcases List.mem_cons.mp hc' with rfl | hm
      · exact hc
      · exact hrest c' hm

theorem key_eq_match (bp : Option ℕ) (c : Surf)
    (he : c.elemt = elem_t.reactive)
    (hk : collKey c = (thisMove bp, bp)) :
    collMatch elem_t.reactive (thisMove bp) bp c = true := by
  have hm : c.movet = thisMove bp := congrArg Prod.fst hk
  have hb : c.bptr = bp := congrArg Prod.snd hk
  cases bp with
  | none =>
      simp only [thisMove, Option.isSome_none, Bool.false_eq_true, if_false] at hm ⊢
      simp [collMatch, he, hm]
  | some k =>
      simp only [thisMove, Option.isSome_some, if_true] at hm ⊢
      simp [collMatch, he, hm, hb]

theorem mem_modifyAt_add_new (g : ElementPacket) :
    ∀ (n : ℕ) (l : List Surf) (b : Surf),
      b ∈ modifyAt (fun c => c.add_new g) n l →
      ∃ b' ∈ l, collKey b' = collKey b := by
  intro n l
  induction l generalizing n with
  | nil =>
      intro b hb
      cases n <;> simp [modifyAt] at hb
  | cons c rest ih =>
      intro b hb
      cases n with
      | zero =>
          rcases List.mem_cons.mp hb with rfl | hm
          · exact ⟨c, List.mem_cons_self c rest, rfl⟩
          · exact ⟨b, List.mem_cons_of_mem c hm, rfl⟩
      | succ m =>
          rcases List.mem_cons.mp hb with rfl | hm
          · exact ⟨b, List.mem_cons_self b rest, rfl⟩
          · obtain ⟨b', hb', hk⟩ := ih m b hm
            exact ⟨b', List.mem_cons_of_mem c hb', hk⟩

theorem inv_modifyAt_add_new (g : ElementPacket) :
    ∀ (n : ℕ) (l : List Surf), BdryInv l →
      BdryInv (modifyAt (fun c => c.add_new g) n l) := by
  intro n l
  induction l generalizing n with
  | nil =>
      intro h
      cases n <;> exact h
  | cons c rest ih =>
      intro h
      obtain ⟨he, hp⟩ := h
      rw [List.pairwise_cons] at hp
      cases n with
      | zero =>
          simp only [modifyAt]
          constructor
          · intro c' hc'
            rcases List.mem_cons.mp hc' with rfl | hm
            · exact he c (List.mem_cons_self c rest)
            · exact he c' (List.mem_cons_of_mem c hm)
          · rw [List.pairwise_cons]
            exact ⟨fun b hb => hp.1 b hb, hp.2⟩
      | succ m =>
          have hrest : BdryInv (modifyAt (fun c => c.add_new g) m rest) :=
            ih m ⟨fun c' hc' => he c' (List.mem_cons_of_mem c hc'), hp.2⟩
          simp only [modifyAt]
          constructor
          · intro c' hc'
            rcases List.mem_cons.mp hc' with rfl | hm
            · exact he c' (List.mem_cons_self c' rest)
            · exact hrest.1 c' hm
          · rw [List.pairwise_cons]
            refine ⟨?_, hrest.2⟩
            intro b hb
            obtain ⟨b', hb', hk⟩ := mem_modifyAt_add_new g m rest b hb
            exact hk ▸ hp.1 b' hb'

/-- `BdryInv` is preserved by every `add_boundary` call (and holds for the
empty list), so it characterizes all `bdry` states the program can reach:
`bdry` is only ever mutated by `add_boundary` and cleared by `reset`. -/
theorem add_boundary_preserves_inv (bdry : List Surf) (bp : Option ℕ)
    (g : ElementPacket) (h : BdryInv bdry) :
    BdryInv (Simulation.add_boundary bdry bp g) := by
  unfold Simulation.add_boundary
  cases hlm : lastMatch bdry elem_t.reactive (thisMove bp) bp with
  | none =>
      obtain ⟨-, hall⟩ := lastMatchAux_eq_none _ _ _ bdry 0 none hlm
      obtain ⟨he, hp⟩ := h
      constructor
      · intro c hc
        rcases List.mem_append.mp hc with hc | hc
        · exact he c hc
        · simp only [List.mem_singleton] at hc
          subst hc
          refine ⟨rfl, ?_⟩
          cases bp with
          | none => left; exact ⟨rfl, rfl⟩
          | some k => right; exact ⟨rfl, by simp [Surf.init]⟩
      · rw [List.pairwise_append]
        refine ⟨hp, List.pairwise_singleton _ _, ?_⟩
        intro a ha b hb
        simp only [List.mem_singleton] at hb
        subst hb
        intro hkey
        have hmatch := key_eq_match bp a ((he a ha).1) hkey
        rw [hall a ha] at hmatch
        exact Bool.noConfusion hmatch
  | some i => exact inv_modifyAt_add_new g i bdry h

/-- C1: `add_boundary(body, geometry)` merges into an existing collection
when, and only when, that collection has identical element kind (reactive),
identical motion kind, and — when body-bound — the identical Body reference;
otherwise a new collection is appended.  On `bdry` states reachable by
`add_boundary` (captured by `BdryInv`) the match is unique, so the first match
in list order receives the geometry; two body-bound insertions with different
Body references produce two distinct collections, and two insertions with the
same Body reference produce one collection whose panel count is the sum of
both insertions' panel counts. -/
theorem add_boundary_collection_matching (bdry : List Surf) (bp : Option ℕ)
    (g : ElementPacket) (h : BdryInv bdry) :
    (∀ c : Surf, collMatch elem_t.reactive (thisMove bp) bp c = true ↔
        (c.elemt = elem_t.reactive ∧ c.movet = thisMove bp ∧
         (thisMove bp = move_t.bodybound → bp = c.bptr))) ∧
    ((∀ c ∈ bdry, collMatch elem_t.reactive (thisMove bp) bp c = false) →
        Simulation.add_boundary bdry bp g
          = bdry ++ [Surf.init g elem_t.reactive (thisMove bp) bp]) ∧
    (∀ l1 c l2, bdry = l1 ++ c :: l2 →
        collMatch elem_t.reactive (thisMove bp) bp c = true →
        (∀ c1 ∈ l1, collMatch elem_t.reactive (thisMove bp) bp c1 = false) ∧
        Simulation.add_boundary bdry bp g = l1 ++ c.add_new g :: l2 ∧
        (c.add_new g).np = c.np + g.npanels) ∧
    (∀ b1 b2 : ℕ, ∀ g1 g2 : ElementPacket, b1 ≠ b2 →
        Simulation.add_boundary
            (Simulation.add_boundary [] (some b1) g1) (some b2) g2
          = [Surf.init g1 elem_t.reactive move_t.bodybound (some b1),
             Surf.init g2 elem_t.reactive move_t.bodybound (some b2)]) ∧
    (∀ b0 : ℕ, ∀ g1 g2 : ElementPacket,
        Simulation.add_boundary
            (Simulation.add_boundary [] (some b0) g1) (some b0) g2
          = [{ elemt := elem_t.reactive, movet := move_t.bodybound,
               bptr := some b0, np := g1.npanels + g2.npanels }]) := by
  refine ⟨?_, ?_, ?_, ?_, ?_⟩
  · intro c
    cases bp with
    | none => simp [collMatch, thisMove]
    | some k =>
        by_cases hmv : c.movet = move_t.bodybound
        · simp [collMatch, thisMove, hmv]
        · simp [collMatch, thisMove, hmv]
  · intro hall
    have hnone : lastMatch bdry elem_t.reactive (thisMove bp) bp = none :=
      lastMatchAux_of_all_false _ _ _ bdry 0 none hall
    simp [Simulation.add_boundary, hnone]
  · intro l1 c l2 hdec hcm
    subst hdec
    obtain ⟨h1, h2⟩ := BdryInv.no_other_match bp l1 l2 c h hcm
    have hlm := lastMatch_decomp elem_t.reactive (thisMove bp) bp l1 l2 c h1 hcm h2
    refine ⟨h1, ?_, rfl⟩
    unfold Simulation.add_boundary
    rw [hlm]
    exact modifyAt_append _ l1 l2 c
  · intro b1 b2 g1 g2 hne
    have hne' : b2 ≠ b1 := Ne.symm hne
    simp [Simulation.add_boundary, lastMatch, lastMatchAux, collMatch,
          thisMove, Surf.init, hne']
  · intro b0 g1 g2
    simp [Simulation.add_boundary, lastMatch, lastMatchAux, collMatch,
          thisMove, Surf.init, Surf.add_new, modifyAt]

/-- Witness for C1: a concrete invariant-satisfying state on which a fixed
(bodyless) insertion matches nothing and appends a new collection. -/
theorem add_boundary_collection_matching_witness :
    BdryInv bdryW ∧
    (∀ c ∈ bdryW, collMatch elem_t.reactive (thisMove none) none c = false) ∧
    Simulation.add_boundary bdryW none gW
      = bdryW ++ [Surf.init gW elem_t.reactive (thisMove none) none] :=
  ⟨by unfold BdryInv bdryW; decide, by decide,
   (add_boundary_collection_matching bdryW none gW
     (by unfold BdryInv bdryW; decide)).2.1 (by decide)⟩

/-- C2: `check_simulation` returns advisory text only (it is a total
function of the state — it never throws): with zero boundary features and
zero particles the returned string is the "No flow features and no bodies"
message; with at least one boundary feature, zero particles, freestream of
squared magnitude below machine epsilon and no body motion, the returned
string is exactly the zero-freestream advisory — the function returns
immediately at that point, so the diffusion-disabled advisory is never also
appended in that combination, whatever `diffuse_on` is. -/
theorem check_simulation_advisories (s : Sim) (nff nbf : ℕ) :
    (nbf = 0 → s.get_nparts = 0 →
        s.check_simulation nff nbf = msgNoFeatures) ∧
    (0 < nbf → s.get_nparts = 0 →
        s.fs0 * s.fs0 + s.fs1 * s.fs1 < machineEps →
        s.do_any_bodies_move = false →
        s.check_simulation nff nbf = msgZeroFreestream) := by
  constructor
  · intro h0 hp
    subst h0
    simp [Sim.check_simulation, hp]
  · intro hpos hp hfs hmove
    have h0 : ¬ nbf = 0 := by omega
    simp [Sim.check_simulation, hp, h0, hpos, hfs, hmove]

/-- Witness for C2 on the freshly constructed (empty, zero-freestream,
diffusion-off) state. -/
theorem check_simulation_advisories_witness :
    Sim.check_simulation simW 0 0 = msgNoFeatures ∧
    Sim.check_simulation simW 0 1 = msgZeroFreestream :=
  ⟨(check_simulation_advisories simW 0 0).1 rfl rfl,
   (check_simulation_advisories simW 0 1).2 (by decide) rfl
     (by simp [simW, machineEps]) rfl⟩

/-- C3: `test_for_new_results` returns true immediately when no step has
been started; when a step is outstanding and its background result is ready
it consumes the future (propagating a stored failure to the caller at exactly
this point), marks the step finished and no longer started, and returns true;
otherwise it returns false without consuming anything.  Consequently, after a
consume the immediately following call returns true again via the
not-started branch, with no background step outstanding and none launched
(`test_for_new_results` never creates a future). -/
theorem test_for_new_results_state_machine (s : Sim) :
    (s.step_has_started = false → s.test_for_new_results = (s, .ok true)) ∧
    (∀ t, s.step_has_started = true → s.stepfuture = some t → t.ready = true →
        t.result = .ok () →
        s.test_for_new_results
          = ({ s with stepfuture := none, step_is_finished := true,
                      step_has_started := false }, .ok true)) ∧
    (∀ t e, s.step_has_started = true → s.stepfuture = some t →
        t.ready = true → t.result = .error e →
        s.test_for_new_results = ({ s with stepfuture := none }, .error e)) ∧
    (∀ t, s.step_has_started = true → s.stepfuture = some t → t.ready = false →
        s.test_for_new_results = (s, .ok false)) ∧
    (∀ t, s.step_has_started = true → s.stepfuture = some t → t.ready = true →
        t.result = .ok () →
        (s.test_for_new_results.1.test_for_new_results
            = (s.test_for_new_results.1, .ok true) ∧
         s.test_for_new_results.1.stepfuture = none ∧
         s.test_for_new_results.1.step_has_started = false ∧
         s.test_for_new_results.1.step_is_finished = true)) ∧
    (((s.async_step (.ok ())).future_completes).test_for_new_results.2
        = .ok true ∧
     ((s.async_step (.ok ())).future_completes).test_for_new_results.1.stepfuture
        = none) := by
  refine ⟨?_, ?_, ?_, ?_, ?_, ?_⟩
  · intro h
    simp [Sim.test_for_new_results, h]
  · intro t hs hf hr hres
    simp [Sim.test_for_new_results, hs, hf, hr, hres]
  · intro t e hs hf hr hres
    simp [Sim.test_for_new_results, hs, hf, hr, hres]
  · intro t hs hf hr
    simp [Sim.test_for_new_results, hs, hf, hr]
  · intro t hs hf hr hres
    have h2 : s.test_for_new_results
        = ({ s with stepfuture := none, step_is_finished := true,
                    step_has_started := false }, .ok true) := by
      simp [Sim.test_for_new_results, hs, hf, hr, hres]
    rw [h2]
    exact ⟨by simp [Sim.test_for_new_results], rfl, rfl, rfl⟩
  · constructor <;>
      simp [Sim.async_step, Sim.future_completes, Sim.test_for_new_results]

/-- Witness for C3: a ready, successful background step is consumed and the
state goes idle with the finished flag set. -/
theorem test_for_new_results_state_machine_witness :
    Sim.test_for_new_results
        { simW with step_has_started := true,
                    stepfuture := some { ready := true, result := .ok () } }
      = ({ simW with step_has_started := false,
                     stepfuture := none, step_is_finished := true }, .ok true) :=
  (test_for_new_results_state_machine _).2.1 _ rfl rfl rfl rfl

/-- C4: `reset` waits for any in-flight step to complete and consumes its
result (modelled: its state effect lands and the future is gone); whenever
`reset` returns, the three collection lists are empty, simulation time is 0,
the step-started and step-finished flags are cleared, and the body list is
exactly what it was before. -/
theorem reset_clears_collections (sq : ℚ → ℚ) (F : StepFns) (s s' : Sim)
    (h : Sim.reset sq F s = Except.ok s') :
    s'.vort = [] ∧ s'.bdry = [] ∧ s'.fldpt = [] ∧ s'.time = 0 ∧
    s'.step_has_started = false ∧ s'.step_is_finished = false ∧
    s'.stepfuture = none ∧ s'.bodies = s.bodies := by
  cases hf : s.stepfuture with
  | none =>
      simp only [Sim.reset, hf] at h
      rw [Except.ok.injEq] at h
      subst h
      exact ⟨rfl, rfl, rfl, rfl, rfl, rfl, rfl, rfl⟩
  | some t =>
      cases hres : t.result with
      | error e => simp [Sim.reset, hf, hres] at h
      | ok u =>
          simp only [Sim.reset, hf, hres] at h
          rw [Except.ok.injEq] at h
          subst h
          refine ⟨rfl, rfl, rfl, rfl, rfl, rfl, rfl, ?_⟩
          simp [Sim.step]

/-- Witness for C4: resetting the empty state returns it unchanged. -/
theorem reset_clears_collections_witness :
    Sim.reset id stepFnsW simW = Except.ok simW ∧ simW.vort = ([] : List Pts) :=
  ⟨rfl, (reset_clears_collections id stepFnsW simW simW rfl).1⟩

/-- C5: one `step()` performs exactly one full-step diffusion pass and then
one second-order convection pass, in that order, with the full `dt` handed to
each (no sub-stepped diffusion); the convection pass consumes the diffusion
pass's output; the clock advances by exactly `dt`, and `n` repeated steps
leave the clock at exactly `time + n·dt` (pure accumulation, no
re-synchronization). -/
theorem step_diffuse_then_convect (sq : ℚ → ℚ) (F : StepFns) (s : Sim)
    (n : ℕ) :
    (Sim.step sq F s).2
      = [StepEv.diffuse s.time s.dt, StepEv.convect2 s.time s.dt] ∧
    ((Sim.step sq F s).1.vort, (Sim.step sq F s).1.bdry,
     (Sim.step sq F s).1.fldpt)
      = F.advect_2nd s.time s.dt (s.fs0, s.fs1)
          (F.diff_step s.time s.dt s.re (s.get_vdelta sq) (s.fs0, s.fs1)
            s.vort s.bdry).1
          (F.diff_step s.time s.dt s.re (s.get_vdelta sq) (s.fs0, s.fs1)
            s.vort s.bdry).2
          s.fldpt ∧
    (Sim.step sq F s).1.time = s.time + s.dt ∧
    (Sim.step sq F s).1.dt = s.dt ∧
    (Sim.stepIter sq F n s).time = s.time + n * s.dt := by
  refine ⟨rfl, rfl, rfl, rfl, ?_⟩
  induction n generalizing s with
  | zero => simp [Sim.stepIter]
  | succ m ih =>
      rw [Sim.stepIter, ih]
      simp only [Sim.step]
      push_cast
      ring

/-- C9: `get_pointer_to_body(name)` always appends a fresh body named
"ground" (at rest at the origin) and returns it, growing the body list by
one, for every name — the search loop never assigns the returned pointer,
also when a body of that name already exists in the list. -/
theorem get_pointer_to_body_always_ground (s : Sim) (nm : String) :
    (s.get_pointer_to_body nm).1.bodies
        = s.bodies ++ [Body.mkDefault.set_name "ground"] ∧
    (s.get_pointer_to_body nm).1.bodies.length = s.bodies.length + 1 ∧
    (s.get_pointer_to_body nm).2.1.name = "ground" ∧
    (s.get_pointer_to_body nm).2.1.pos0 = 0 ∧
    (s.get_pointer_to_body nm).2.1.pos1 = 0 ∧
    (s.get_pointer_to_body nm).2.1.vel0 = 0 ∧
    (s.get_pointer_to_body nm).2.1.vel1 = 0 ∧
    (s.get_pointer_to_body nm).2.1.avel = 0 := by
  refine ⟨rfl, ?_, rfl, rfl, rfl, rfl, rfl, rfl⟩
  simp [Sim.get_pointer_to_body, Sim.add_body]

/-- C10: `add_particles` overwrites the fourth component of each particle
(the core radius, indices ≡ 3 mod 4) with the current `get_vdelta()` before
the particles are stored — the caller-supplied radius values are ignored —
while all other components are kept; both the create path and the
add-to-last-collection path store exactly the overwritten vector; an empty
input returns immediately with the state unchanged. -/
theorem add_particles_radius_overwrite (sq : ℚ → ℚ) (s : Sim)
    (invec : List ℚ) :
    (Sim.add_particles sq s [] = .ok s) ∧
    (∀ i : ℕ, i % 4 = 3 →
        (Sim.overwriteRadii (s.get_vdelta sq) invec)[i]?
          = (invec[i]?).map (fun _ => s.get_vdelta sq)) ∧
    (∀ i : ℕ, i % 4 ≠ 3 →
        (Sim.overwriteRadii (s.get_vdelta sq) invec)[i]? = invec[i]?) ∧
    (∀ p ps, s.vort = ps ++ [p] → invec ≠ [] → invec.length % 4 = 0 →
        Sim.add_particles sq s invec
          = .ok { s with vort :=
              ps ++ [p.add_new (Sim.overwriteRadii (s.get_vdelta sq) invec)] }) ∧
    (s.vort = [] → invec ≠ [] → invec.length % 4 = 0 →
        invec.length % 7 = 0 →
        Sim.add_particles sq s invec
          = .ok { s with vort :=
              [{ elemt := elem_t.active, movet := move_t.lagrangian,
                 n := invec.length / 4,
                 data := Sim.overwriteRadii (s.get_vdelta sq) invec }] }) := by
  refine ⟨rfl, ?_, ?_, ?_, ?_⟩
  · intro i hi
    cases h : invec[i]? <;>
      simp [Sim.overwriteRadii, List.getElem?_map, List.getElem?_enum,
            Function.comp, hi, h]
  · intro i hi
    cases h : invec[i]? <;>
      simp [Sim.overwriteRadii, List.getElem?_map, List.getElem?_enum,
            Function.comp, hi, h]
  · intro p ps hv hne hmod
    have hlen : ¬ invec.length = 0 := by
      simp [List.length_eq_zero, hne]
    simp [Sim.add_particles, hv, hlen, hmod, List.getLast?_concat,
          List.dropLast_concat]
  · intro hv hne hmod hmod7
    have hlen : ¬ invec.length = 0 := by
      simp [List.length_eq_zero, hne]
    have hlen2 : (Sim.overwriteRadii (s.get_vdelta sq) invec).length
        = invec.length := by
      simp [Sim.overwriteRadii]
    simp [Sim.add_particles, hv, hlen, hmod, Points.ctor, hlen2, hmod7]

/-- Witness for C10: adding one particle with caller radius 9 to a state with
an existing collection stores it with the radius replaced by the current
vdelta (1/10000 here). -/
theorem add_particles_radius_overwrite_witness :
    simP.vort = [] ++ [ptsW] ∧
    Sim.overwriteRadii (Sim.get_vdelta id simP) [1, 2, 3, 9]
      = [1, 2, 3, 1 / 10000] ∧
    Sim.add_particles id simP [1, 2, 3, 9]
      = .ok { simP with vort :=
          [] ++ [ptsW.add_new (Sim.overwriteRadii (Sim.get_vdelta id simP)
                                [1, 2, 3, 9])] } :=
  ⟨rfl,
   by
     simp [Sim.overwriteRadii, Sim.get_vdelta, Sim.get_ips, Sim.get_hnu,
           simP, simW, List.enum, List.enumFrom]
     norm_num,
   (add_particles_radius_overwrite id simP [1, 2, 3, 9]).2.2.2.1 ptsW []
     rfl (by decide) (by decide)⟩

/-- C8: invalid input shapes do fail at the boundary of `add_particles` /
`add_fldpts` (their stride assertions), but the additional assertion inside
the `Points` constructor is `_in.size() % 7 == 0` — a leftover 3D stride —
so it also fires on stride-valid input: a single particle (4 entries, a
multiple of 4) or a single field point (2 entries, a multiple of 2) aborts in
the constructor when a new collection must be created, contradicting the
constructor's own documented `4*n` input contract. -/
theorem stride_assert_failures :
    ((4 : ℕ) % 4 = 0 ∧
     Sim.add_particles id simW [0, 0, 1, 0]
       = .error "assert failed: _in.size() % 7 == 0") ∧
    ((2 : ℕ) % 2 = 0 ∧
     Sim.add_fldpts simW [0, 0] false
       = .error "assert failed: _in.size() % 7 == 0") ∧
    (Sim.add_particles id simW [0, 0, 1]
       = .error "assert failed: _invec.size() % 4 == 0") ∧
    (Sim.add_fldpts simW [0] false
       = .error "assert failed: _invec.size() % Dimensions == 0") :=
  ⟨⟨rfl, rfl⟩, ⟨rfl, rfl⟩, rfl, rfl⟩

end Omega2D
